import Mathlib

/-!
Formal verification of the TEST_CRYPTO two-service wallet pipeline.

The file shallowly embeds the parts of the repository that the checked
properties are about:

* the in-memory TTL cache (`wallet_service/infrastructure/cache/cache_service.py`),
* the HD derivation-index allocator (`wallet_service/services/derivation_service.py`),
* the idempotent event handler (`wallet_service/services/event_handler.py`),
* the `Wallet` domain model and its constructor-time address validation
  (`wallet_service/domain/models/wallet.py`),
* the wallet generator template method
  (`wallet_service/infrastructure/crypto/generators/base.py`),
* the verification service
  (`user_verification_service/src/services/verification_service.py`).

Time is modelled as rational-valued epoch seconds; byte strings as `List Nat`;
fallible Python code returns `Option` or an explicit outcome type.
-/

namespace TestCrypto

/-- Supported networks (`NetworkType` in `wallet_service/domain/models/wallet.py`
and `user_verification_service/src/domain/models/verification.py`, identical
string enums). -/
inductive NetworkType
  | ethereum
  | tron
  | bitcoin
deriving DecidableEq, Repr

/-- String value of the network enum member. -/
def NetworkType.val : NetworkType → String
  | .ethereum => "ethereum"
  | .tron => "tron"
  | .bitcoin => "bitcoin"

/-! ## Cache (`CacheService` in `cache_service.py`)

The store maps the full (prefixed) key to `(expiry, value)`.  `expiry = 0`
encodes the Python falsy float `0.0`, meaning "never expires". -/

/-- Cache store contents: full key ↦ `(expiry epoch seconds, value)`.
Embeds `CacheService._store`. -/
def CacheStore (α : Type) := String → Option (Rat × α)

/-- Empty store, the state right after `CacheService.__init__`. -/
def emptyCache (α : Type) : CacheStore α := fun _ => none

/-- `CacheService._prefixed`: prepend `settings.cache_key_prefix`. -/
def prefixedKey (keyPfx key : String) : String := keyPfx ++ key

/-- `CacheService.get` at time `now`: `none` on miss; on a hit whose expiry is
nonzero and strictly in the past, the entry is deleted (lazy eviction) and
`none` is returned; otherwise the stored value is returned. -/
def cacheGet {α : Type} (keyPfx : String) (now : Rat) (st : CacheStore α)
    (key : String) : Option α × CacheStore α :=
  let fullKey := prefixedKey keyPfx key
  match st fullKey with
  | none => (none, st)
  | some (expiry, v) =>
      if expiry ≠ 0 ∧ expiry < now then
        (none, fun k => if k = fullKey then none else st k)
      else
        (some v, st)

/-- `CacheService.set` at time `now`.  A missing or zero `ttl` argument falls
back to `settings.cache_ttl_seconds` (the Python `ttl = ttl or
self.settings.cache_ttl_seconds`); a still-zero effective ttl stores
expiry `0`, i.e. no expiry. -/
def cacheSet {α : Type} (keyPfx : String) (defTtl now : Rat) (st : CacheStore α)
    (key : String) (v : α) (ttlArg : Option Rat) : CacheStore α :=
  let ttl := match ttlArg with
    | some t => if t = 0 then defTtl else t
    | none => defTtl
  let expiry := if ttl = 0 then 0 else now + ttl
  let fullKey := prefixedKey keyPfx key
  fun k => if k = fullKey then some (expiry, v) else st k

/-! ## Derivation-index allocator (`DerivationService` in `derivation_service.py`) -/

/-- State visible to one `DerivationService.get_next_index` call: the shared
cache, plus the answer `WalletRepository.get_next_derivation_index(network)`
would currently give (`max(derivation_index) + 1` over the table, or `0` when
empty).  The allocator itself never writes the repository. -/
structure AllocState where
  cache : CacheStore Nat
  repoNext : String → Nat

/-- `DerivationService.get_next_index(network)` at time `now`, under the
per-network mutex: on a cache hit under `next_index:{network}` return the
cached index and advance the cached entry by one; on a miss seed from the
repository, return that, and cache its successor.  Both `cache.set` calls pass
no ttl, so entries carry the default `cache_ttl_seconds` (`defTtl`). -/
def get_next_index (keyPfx : String) (defTtl now : Rat) (net : String)
    (s : AllocState) : Nat × AllocState :=
  let key := "next_index:" ++ net
  match cacheGet keyPfx now s.cache key with
  | (some c, cache1) =>
      (c, ⟨cacheSet keyPfx defTtl now cache1 key (c + 1) none, s.repoNext⟩)
  | (none, cache1) =>
      let nxt := s.repoNext net
      (nxt, ⟨cacheSet keyPfx defTtl now cache1 key (nxt + 1) none, s.repoNext⟩)

/-- Outputs of successive `get_next_index` calls at the given times. -/
def runAlloc (keyPfx : String) (defTtl : Rat) (net : String) :
    List Rat → AllocState → List Nat
  | [], _ => []
  | t :: ts, s =>
      (get_next_index keyPfx defTtl t net s).1 ::
        runAlloc keyPfx defTtl net ts (get_next_index keyPfx defTtl t net s).2

/-! ## Event schema and idempotent handler
(`domain/schemas/events.py`, `infrastructure/kafka/consumer.py`,
`services/event_handler.py` of the wallet service)

`processed_events` is a CPython `set` of strings.  Its contents are modelled
as the list of elements in insertion order (the handler only ever adds an
element after a membership test, so the contents are duplicate-free); the
enumeration that `list(self._processed_events)` performs is hash-table order,
which CPython does not tie to insertion order (string hashes are furthermore
seed-randomised per process), so it is passed in as an explicit `setEnum`
parameter; an admissible enumeration is any permutation of the contents. -/

/-- Incoming `user.verified` event (`UserVerifiedEvent` pydantic model).
`timestamp` is optional with default `None`; the `some` payload stands for the
`str()` rendering of the parsed datetime. -/
structure UserVerifiedEvent where
  event : String
  user_id : String
  network : String
  timestamp : Option String
deriving DecidableEq, Repr

/-- Fields present in the JSON value of a consumed message. -/
structure RawUserVerified where
  event : Option String
  user_id : Option String
  network : Option String
  timestamp : Option String
deriving DecidableEq, Repr

/-- Pydantic validation performed by `UserVerifiedEvent(**message.value)` in
`KafkaEventConsumer._process_message`: the three required fields must be
present; a missing `timestamp` defaults to `None`. -/
def decodeUserVerified (r : RawUserVerified) : Option UserVerifiedEvent :=
  match r.event, r.user_id, r.network with
  | some ev, some u, some n => some ⟨ev, u, n, r.timestamp⟩
  | _, _, _ => none

/-- Dedup key `f"{event.user_id}:{event.network}:{event.timestamp}"`;
a `None` timestamp renders as the four characters `None`. -/
def eventKey (e : UserVerifiedEvent) : String :=
  e.user_id ++ ":" ++ e.network ++ ":" ++
    (match e.timestamp with
     | none => "None"
     | some ts => ts)

/-- The classes the handler's try/except dispatch distinguishes on the
`create_wallet` call: normal return, `WalletAlreadyExistsException`, or any
other exception.  Note that `WalletService.create_wallet` itself never raises
`WalletAlreadyExistsException` — that class is defined in
`core/exceptions.py` and caught in the handler but raised nowhere, and
`create_wallet`'s blanket `except Exception` (wallet_service.py lines 70-79)
re-raises every failure of its try block, the repository's unique-constraint
`IntegrityError` included, as `WalletGenerationException` — so with the
source's `create_wallet` only `.created` and `.failed` are reachable and the
handler's `.alreadyExists` branch is dead code (see `create_wallet_outcome`).
-/
inductive CreateWalletOutcome
  | created
  | alreadyExists
  | failed
deriving DecidableEq, Repr

/-- Ways the try block of `WalletService.create_wallet` can end: a wallet is
generated and persisted; the repository's unique-constraint violation
(SQLAlchemy `IntegrityError`) fires at `repository.create` (nothing in
`WalletRepository.create` catches it); or some other exception occurs. -/
inductive CreateAttempt
  | ok
  | uniqueViolation
  | otherError
deriving DecidableEq, Repr

/-- The exception handling of `create_wallet` (wallet_service.py lines
70-79): `except Exception as e: raise WalletGenerationException(...)`.  Every
failing attempt — the unique-constraint violation included — reaches the
caller as `WalletGenerationException`, which the handler's dispatch
classifies as a generic failure; `WalletAlreadyExistsException` is never
produced. -/
def create_wallet_outcome : CreateAttempt → CreateWalletOutcome
  | .ok => .created
  | .uniqueViolation => .failed
  | .otherError => .failed

/-- Result of `handle_user_verified`: early return on a duplicate, normal
return, or a re-raised exception. -/
inductive HandlerResult
  | skippedDuplicate
  | ok
  | raised
deriving DecidableEq, Repr

/-- Lines 37-38 of `event_handler.py`:
`if len(self._processed_events) > 10000: self._processed_events =
set(list(self._processed_events)[-5000:])`, where `list(...)` enumerates the
set in `setEnum` order. -/
def trimProcessed (setEnum : List String → List String)
    (s : List String) : List String :=
  if 10000 < s.length then (setEnum s).drop ((setEnum s).length - 5000) else s

/-- `EventHandler.handle_user_verified` with the `create_wallet` call's
behaviour supplied as `outcome`: duplicate keys return early; otherwise the
key is inserted and the set trimmed; `WalletAlreadyExistsException` would be
caught and treated as success (a branch the source's `create_wallet` can
never trigger, see `create_wallet_outcome`); any other exception removes the
key again and is re-raised. -/
def handle_user_verified (setEnum : List String → List String)
    (outcome : CreateWalletOutcome) (e : UserVerifiedEvent)
    (processed : List String) : HandlerResult × List String :=
  if eventKey e ∈ processed then
    (.skippedDuplicate, processed)
  else
    let s1 := trimProcessed setEnum (processed ++ [eventKey e])
    match outcome with
    | .created => (.ok, s1)
    | .alreadyExists => (.ok, s1)
    | .failed => (.raised, s1.erase (eventKey e))

/-- Events used in the concrete runs below: user ids of pairwise distinct
lengths, `network = ""`, no timestamp. -/
def cexEvent (i : Nat) : UserVerifiedEvent :=
  ⟨"user.verified", String.mk (List.replicate i 'a'), "", none⟩

/-- The first 10001 dedup keys in insertion order. -/
def cexInserted : List String :=
  (List.range 10001).map (fun i => eventKey (cexEvent i))

/-- The first 10000 dedup keys in insertion order. -/
def cexProcessed : List String :=
  (List.range 10000).map (fun i => eventKey (cexEvent i))

/-! ## Wallet domain model (`wallet_service/domain/models/wallet.py`) -/

/-- Python `str.startswith`: the string's first `len(pre)` characters equal
`pre`. -/
def pyStartsWith (s pre : String) : Bool :=
  s.data.take pre.data.length == pre.data

/-- `Wallet._validate_ethereum_address`: `startswith("0x") and len == 42`. -/
def validate_ethereum_address (a : String) : Bool :=
  pyStartsWith a "0x" && a.length == 42

/-- `Wallet._validate_tron_address`: `startswith("T") and len == 34`. -/
def validate_tron_address (a : String) : Bool :=
  pyStartsWith a "T" && a.length == 34

/-- `Wallet._validate_bitcoin_address`: `26 <= len(address) <= 35`. -/
def validate_bitcoin_address (a : String) : Bool :=
  decide (26 ≤ a.length) && decide (a.length ≤ 35)

/-- `Wallet._validate_address`: dispatch on the network. -/
def validate_address (net : NetworkType) (a : String) : Bool :=
  match net with
  | .ethereum => validate_ethereum_address a
  | .tron => validate_tron_address a
  | .bitcoin => validate_bitcoin_address a

/-- Domain `Wallet` model (the fields validation and identity use). -/
structure Wallet where
  user_id : String
  network : NetworkType
  wallet_address : String
  derivation_index : Nat
deriving DecidableEq, Repr

/-- Wallet construction: `__post_init__` runs `_validate_address` and raises
`ValueError` on failure, so a `Wallet` value exists exactly for addresses the
validator accepts. -/
def mkWallet (u : String) (net : NetworkType) (a : String) (i : Nat) :
    Option Wallet :=
  if validate_address net a then some ⟨u, net, a, i⟩ else none

/-- Hex digit, for the spec's "40 hex chars" clause. -/
def isHexChar (c : Char) : Bool :=
  c.isDigit || ('a' ≤ c && c ≤ 'f') || ('A' ≤ c && c ≤ 'F')

/-- Spec-side fragment of the ETHEREUM address-format rule, written from the
spec's words: "0x" followed by 40 hex characters.  (The spec further demands
the EIP-55 Keccak checksum; this weaker fragment already separates the spec
rule from the code.) -/
def specEthereumHexRule (a : String) : Bool :=
  pyStartsWith a "0x" && a.length == 42 && (a.data.drop 2).all isHexChar

/-- An address of the right prefix and length whose 40 tail characters are
all `z` — not hex. -/
def badEthAddr : String := "0x" ++ String.mk (List.replicate 40 'z')

/-- What the constructor enforces per network: prefix and length only. -/
def addressShapeRule (net : NetworkType) (a : String) : Prop :=
  match net with
  | .ethereum => pyStartsWith a "0x" = true ∧ a.length = 42
  | .tron => pyStartsWith a "T" = true ∧ a.length = 34
  | .bitcoin => 26 ≤ a.length ∧ a.length ≤ 35

/-! ## Verification service
(`user_verification_service/src/services/verification_service.py` and
`src/domain/models/verification.py`)

`verify_user(user_id, network, document_base64)` is embedded with the
document already base64-decoded (`data`, a byte list), the SHA-256 hex digest
abstracted as a pure function `hashHex`, the repository row for
`(user_id, network)` supplied as `existing`, and the repository/publisher
interactions recorded as an effect trace in program order. -/

/-- `VerificationStatus` string enum. -/
inductive VerificationStatus
  | pending
  | verified
  | failed
deriving DecidableEq, Repr

/-- `UserVerification` dataclass. -/
structure UserVerification where
  user_id : String
  network : NetworkType
  document_hash : String
  id : Option Nat
  status : VerificationStatus
  verified_at : Option String
  created_at : String
deriving DecidableEq, Repr

/-- `NetworkType(network)`: the enum accepts exactly its three values and
raises `ValueError` on anything else (case folding happens earlier, in the
pydantic request validator). -/
def parseNetwork (s : String) : Option NetworkType :=
  if s = "ethereum" then some .ethereum
  else if s = "tron" then some .tron
  else if s = "bitcoin" then some .bitcoin
  else none

/-- Storage and publisher interactions of one `verify_user` call, in program
order: `repository.get_by_user_and_network`, `repository.save`,
`repository.update_status`, `create_task(_publish_event)`. -/
inductive Eff
  | repoRead
  | repoSave
  | repoUpdateStatus
  | publish
deriving DecidableEq, Repr

/-- Result of `verify_user`: `ValueError("Document too large")` (the spec
taxonomy's `INVALID_INPUT` for an oversized document), `ValueError` from
`NetworkType(network)` (`INVALID_INPUT` for an unsupported network), or a
returned verification row. -/
inductive VerifyOutcome
  | tooLarge
  | badNetwork
  | returned (v : UserVerification)
deriving DecidableEq, Repr

/-- The fresh-row path of `verify_user` after the repository read found no
VERIFIED row: construct the model (parsing the network — this is where an
unsupported network raises), save it (getting `newId`), wait, `verify()` it,
update the status, and schedule the event publish. -/
def verifyFresh (hashHex : List Nat → String) (user_id network : String)
    (data : List Nat) (newId : Nat) (nowTs createdTs : String) :
    VerifyOutcome × List Eff :=
  match parseNetwork network with
  | none => (.badNetwork, [.repoRead])
  | some nt =>
      let saved : UserVerification :=
        ⟨user_id, nt, hashHex data, some newId, .pending, none, createdTs⟩
      let final := { saved with
        status := VerificationStatus.verified, verified_at := some nowTs }
      (.returned final, [.repoRead, .repoSave, .repoUpdateStatus, .publish])

/-- `VerificationService.verify_user`: size check first (before any storage
access); then the repository read; an existing VERIFIED row is returned
unchanged; otherwise the fresh-row path runs. -/
def verify_user (hashHex : List Nat → String) (maxMb : Nat)
    (user_id network : String) (data : List Nat)
    (existing : Option UserVerification) (newId : Nat)
    (nowTs createdTs : String) : VerifyOutcome × List Eff :=
  if maxMb * 1024 * 1024 < data.length then (.tooLarge, [])
  else
    match existing with
    | some v =>
        if v.status = .verified then (.returned v, [.repoRead])
        else verifyFresh hashHex user_id network data newId nowTs createdTs
    | none => verifyFresh hashHex user_id network data newId nowTs createdTs

/-! ## Wallet generator template method
(`wallet_service/infrastructure/crypto/generators/base.py` and the
per-network generators)

`_derive_seed` (BIP-39 PBKDF2 seed with passphrase `"wallet-service:" +
user_id`) and `generate_address` (per network: hash of seed and path,
secp256k1 key, address encoding) are pure functions of their arguments in the
source; they enter the embedding as function parameters `deriveSeed` and
`genAddr`, with `validAddr` the per-network address check.  The only mutable
state on a generator instance is `_path_cache`. -/

/-- Mutable state of a generator instance: the `_path_cache` dict. -/
structure GenState where
  pathCache : List (Nat × String)
deriving DecidableEq, Repr

/-- `BaseWalletGenerator.get_derivation_path`: return the cached path for
`idx`, computing and caching `f"{base_derivation_path}/{index}"` on a miss. -/
def get_derivation_path (basePath : String) (idx : Nat) (st : GenState) :
    String × GenState :=
  match st.pathCache.lookup idx with
  | some p => (p, st)
  | none =>
      let p := basePath ++ "/" ++ toString idx
      (p, ⟨(idx, p) :: st.pathCache⟩)

/-- `BaseWalletGenerator.generate`: derive the seed, get the derivation path,
generate the address, and validate it — `none` stands for the
`WalletGenerationException` raised when validation fails. -/
def generate {σ : Type} (deriveSeed : String → String → σ)
    (genAddr : σ → String → String) (validAddr : String → Bool)
    (basePath mnemonic user_id : String) (idx : Nat) (st : GenState) :
    Option String × GenState :=
  let seed := deriveSeed mnemonic user_id
  let r := get_derivation_path basePath idx st
  if validAddr (genAddr seed r.1) then (some (genAddr seed r.1), r.2)
  else (none, r.2)

/-- Every `_path_cache` entry holds exactly the string a fresh computation
would produce. -/
def CacheWF (basePath : String) (st : GenState) : Prop :=
  ∀ p ∈ st.pathCache, p.2 = basePath ++ "/" ++ toString p.1

/-! ## Theorems

The claims settled against the embeddings above, with their supporting
lemmas, witnesses and counterexamples. -/

/-- C8: cache round-trip.  After `set(k, v, ttl)` at time `t0 ≥ 0` with a
positive `ttl`, a `get(k)` strictly before `t0 + ttl` returns `v`, and a
`get(k)` strictly after `t0 + ttl` returns `none`. -/
theorem cache_round_trip {α : Type} (keyPfx : String) (defTtl : Rat)
    (st : CacheStore α) (k : String) (v : α) (ttl t0 t : Rat)
    (httl : 0 < ttl) (ht0 : 0 ≤ t0) :
    (t - t0 < ttl →
      (cacheGet keyPfx t (cacheSet keyPfx defTtl t0 st k v (some ttl)) k).1 = some v) ∧
    (ttl < t - t0 →
      (cacheGet keyPfx t (cacheSet keyPfx defTtl t0 st k v (some ttl)) k).1 = none) := by
  have httl0 : ttl ≠ 0 := ne_of_gt httl
  constructor
  · intro hlt
    have hcond : ¬ (t0 + ttl ≠ 0 ∧ t0 + ttl < t) := by
      rintro ⟨-, h2⟩
      linarith
    simp [cacheGet, cacheSet, prefixedKey, httl0, hcond]
  · intro hgt
    have hne : t0 + ttl ≠ 0 := by positivity
    have hcond : t0 + ttl ≠ 0 ∧ t0 + ttl < t := ⟨hne, by linarith⟩
    simp [cacheGet, cacheSet, prefixedKey, httl0, hcond]

/-- Concrete instance of `cache_round_trip`: default ttl 3600, explicit
ttl 10, set at time 0, reads at times 5 and 11. -/
theorem cache_round_trip_witness :
    (cacheGet "" (5 : Rat) (cacheSet "" 3600 0 (emptyCache Nat) "k" 7 (some 10)) "k").1
        = some 7 ∧
    (cacheGet "" (11 : Rat) (cacheSet "" 3600 0 (emptyCache Nat) "k" 7 (some 10)) "k").1
        = none :=
  ⟨(cache_round_trip "" 3600 (emptyCache Nat) "k" 7 10 0 5 (by norm_num)
      (by norm_num)).1 (by norm_num),
   (cache_round_trip "" 3600 (emptyCache Nat) "k" 7 10 0 11 (by norm_num)
      (by norm_num)).2 (by norm_num)⟩

lemma get_next_index_cache_after (keyPfx : String) (defTtl now : Rat)
    (net : String) (s : AllocState) (hT : defTtl ≠ 0) :
    ((get_next_index keyPfx defTtl now net s).2).cache
        (prefixedKey keyPfx ("next_index:" ++ net))
      = some (now + defTtl, (get_next_index keyPfx defTtl now net s).1 + 1) := by
  rcases h : cacheGet keyPfx now s.cache ("next_index:" ++ net) with ⟨o, cache1⟩
  cases o <;> simp [get_next_index, h, cacheSet, hT]

lemma get_next_index_hit (keyPfx : String) (defTtl now : Rat) (net : String)
    (s : AllocState) (e : Rat) (c : Nat)
    (hc : s.cache (prefixedKey keyPfx ("next_index:" ++ net)) = some (e, c))
    (hnow : ¬ e < now) :
    (get_next_index keyPfx defTtl now net s).1 = c := by
  have hcond : ¬ (e ≠ 0 ∧ e < now) := by
    rintro ⟨-, h2⟩
    exact hnow h2
  simp [get_next_index, cacheGet, hc, hcond]

lemma runAlloc_progression (keyPfx net : String) (defTtl : Rat)
    (hT : 0 < defTtl) :
    ∀ (ts : List Rat) (tPrev : Rat) (c : Nat) (s : AllocState),
      0 ≤ tPrev →
      List.Chain (fun a b => 0 ≤ b ∧ b ≤ a + defTtl) tPrev ts →
      s.cache (prefixedKey keyPfx ("next_index:" ++ net))
        = some (tPrev + defTtl, c) →
      runAlloc keyPfx defTtl net ts s = (List.range ts.length).map (· + c) := by
  intro ts
  induction ts with
  | nil => intro tPrev c s _ _ _; rfl
  | cons t ts ih =>
      intro tPrev c s hPrev hchain hcache
      rcases hchain with _ | ⟨⟨ht0, htle⟩, hchain'⟩
      have hout : (get_next_index keyPfx defTtl t net s).1 = c :=
        get_next_index_hit keyPfx defTtl t net s (tPrev + defTtl) c hcache
          (not_lt.mpr htle)
      have hnext :
          ((get_next_index keyPfx defTtl t net s).2).cache
              (prefixedKey keyPfx ("next_index:" ++ net))
            = some (t + defTtl, c + 1) := by
        rw [get_next_index_cache_after keyPfx defTtl t net s (ne_of_gt hT), hout]
      have hrec := ih t (c + 1) (get_next_index keyPfx defTtl t net s).2
        ht0 hchain' hnext
      simp only [runAlloc, hout, hrec, List.length_cons, List.range_succ_eq_map,
        List.map_cons, List.map_map]
      congr 1
      · omega
      · apply List.map_congr_left
        intro a _
        simp only [Function.comp_apply]
        omega

/-- C3 (amended): within a single process, successive `get_next_index(net)`
calls return strictly increasing indices as long as each call happens within
`cache_ttl_seconds` of the previous one, i.e. the `next_index:{network}` cache
entry never expires between calls: every returned index is strictly greater
than every index returned earlier in the sequence. -/
theorem get_next_index_monotonic_without_expiry (keyPfx net : String)
    (defTtl : Rat) (ts : List Rat) (s0 : AllocState)
    (hT : 0 < defTtl)
    (hchain : List.Chain' (fun a b => 0 ≤ b ∧ b ≤ a + defTtl) ts)
    (hpos : ∀ t ∈ ts, 0 ≤ t) :
    List.Pairwise (· < ·) (runAlloc keyPfx defTtl net ts s0) := by
  cases ts with
  | nil => simp [runAlloc]
  | cons t0 ts =>
      have h0 : 0 ≤ t0 := hpos t0 (List.mem_cons_self t0 ts)
      have hcache :
          ((get_next_index keyPfx defTtl t0 net s0).2).cache
              (prefixedKey keyPfx ("next_index:" ++ net))
            = some (t0 + defTtl, (get_next_index keyPfx defTtl t0 net s0).1 + 1) :=
        get_next_index_cache_after keyPfx defTtl t0 net s0 (ne_of_gt hT)
      have hrest := runAlloc_progression keyPfx net defTtl hT ts t0
        ((get_next_index keyPfx defTtl t0 net s0).1 + 1)
        (get_next_index keyPfx defTtl t0 net s0).2 h0 hchain hcache
      simp only [runAlloc, hrest]
      refine List.pairwise_cons.mpr ⟨?_, ?_⟩
      · intro b hb
        rcases List.mem_map.mp hb with ⟨i, -, rfl⟩
        omega
      · refine List.pairwise_map.mpr ?_
        exact (List.pairwise_lt_range ts.length).imp (by omega)

/-- Concrete instance of `get_next_index_monotonic_without_expiry`: three
calls at times 0, 1, 2 with ttl 3600 from an empty cache. -/
theorem get_next_index_monotonic_witness :
    List.Pairwise (· < ·)
      (runAlloc "" 3600 "ethereum" [0, 1, 2]
        ⟨emptyCache Nat, fun _ => 5⟩) :=
  get_next_index_monotonic_without_expiry "" "ethereum" 3600 [0, 1, 2]
    ⟨emptyCache Nat, fun _ => 5⟩ (by norm_num)
    (by refine List.chain'_cons.mpr ⟨⟨by norm_num, by norm_num⟩, ?_⟩
        refine List.chain'_cons.mpr ⟨⟨by norm_num, by norm_num⟩, ?_⟩
        simp)
    (by intro t ht
        simp only [List.mem_cons, List.not_mem_nil, or_false] at ht
        rcases ht with rfl | rfl | rfl <;> norm_num)

/-- C3 counterexample: with an empty repository (no wallet rows persisted, so
`get_next_derivation_index` answers 0 both times) and the cache entry expiring
between the calls (second call 3601 s after the first with ttl 3600 s), two
successive `get_next_index("ethereum")` calls in one process both return 0 —
not strictly increasing.  This falsifies the claim that monotonicity holds
even across an expiry of the `next_index:{network}` entry. -/
theorem get_next_index_expiry_cex :
    (get_next_index "" 3600 0 "ethereum" ⟨emptyCache Nat, fun _ => 0⟩).1 = 0 ∧
    (get_next_index "" 3600 3601 "ethereum"
        (get_next_index "" 3600 0 "ethereum" ⟨emptyCache Nat, fun _ => 0⟩).2).1
      = 0 := by
  constructor
  · simp [get_next_index, cacheGet, emptyCache, prefixedKey]
  · simp [get_next_index, cacheGet, cacheSet, emptyCache, prefixedKey]
    norm_num

/-- C1: evaluation of the code at the claimed scenario.  A fresh
`user.verified` event is handled and the `create_wallet` call hits the
repository's unique-constraint violation.  The violation reaches the handler
as `WalletGenerationException` (`create_wallet_outcome .uniqueViolation`),
never as `WalletAlreadyExistsException`, so the handler's generic except
branch runs: the call errors (`.raised`) and the dedup key is removed from
`processed_events` (the state is `[]` again) — the handler does NOT treat the
duplicate as success, contradicting the claim, the spec, and the intent shown
by the handler's own unreachable `except WalletAlreadyExistsException`
branch. -/
theorem handle_unique_violation_raises_and_removes_key :
    handle_user_verified id (create_wallet_outcome .uniqueViolation)
        (cexEvent 0) []
      = (.raised, []) := by
  decide

lemma cexEvent_key_length (i : Nat) : (eventKey (cexEvent i)).length = i + 6 := by
  simp only [eventKey, cexEvent, String.length_append]
  have h1 : (String.mk (List.replicate i 'a')).length = i := by
    show (List.replicate i 'a').length = i
    simp
  have h2 : String.length ":" = 1 := rfl
  have h3 : String.length "" = 0 := rfl
  have h4 : String.length "None" = 4 := rfl
  rw [h1, h2, h3, h4]

lemma cexEvent_key_injective :
    Function.Injective (fun i => eventKey (cexEvent i)) := by
  intro i j h
  have := congrArg String.length h
  simpa [cexEvent_key_length] using this

lemma range_10001_eq : List.range 10001 = List.range 10000 ++ [10000] := by
  have h := List.range_succ 10000
  have h2 : Nat.succ 10000 = 10001 := rfl
  rw [h2] at h
  exact h

lemma cexInserted_eq :
    cexInserted = cexProcessed ++ [eventKey (cexEvent 10000)] := by
  unfold cexInserted cexProcessed
  rw [range_10001_eq, List.map_append]
  rfl

lemma cexInserted_length : cexInserted.length = 10001 := by
  simp [cexInserted]

lemma cexInserted_nodup : cexInserted.Nodup :=
  (List.nodup_range 10001).map cexEvent_key_injective

lemma drop_cons_5001 {α : Type} (a : α) (l : List α) :
    (a :: l).drop 5001 = l.drop 5000 := rfl

/-- In a duplicate-free list, an element sitting before position `n` does not
survive `drop n`. -/
lemma getElem_not_mem_drop {α : Type} (l : List α) (hnd : l.Nodup)
    (i n : Nat) (hi : i < l.length) (hin : i < n) :
    l.get ⟨i, hi⟩ ∉ l.drop n := by
  intro hmem
  rcases List.mem_iff_getElem.mp hmem with ⟨j, hj, hget⟩
  rw [List.getElem_drop] at hget
  have : n + j = i := (hnd.getElem_inj_iff).mp (by simpa using hget)
  omega

/-- C2 (amended): whenever the set exceeds 10000 entries it is trimmed to
exactly 5000 entries, each of which was in the set — but the kept entries are
the last 5000 of the set's enumeration order (any permutation of the
contents, hash-dependent in CPython), not necessarily the 5000 most recently
inserted. -/
theorem trim_keeps_5000_subset (setEnum : List String → List String)
    (s : List String) (hperm : (setEnum s).Perm s) (hlen : 10000 < s.length) :
    (trimProcessed setEnum s).length = 5000 ∧
    ∀ x ∈ trimProcessed setEnum s, x ∈ s := by
  have hl : (setEnum s).length = s.length := hperm.length_eq
  constructor
  · simp only [trimProcessed, if_pos hlen, List.length_drop, hl]
    omega
  · intro x hx
    simp only [trimProcessed, if_pos hlen] at hx
    exact hperm.mem_iff.mp (List.mem_of_mem_drop hx)

/-- Concrete instance of `trim_keeps_5000_subset`: 10001 keys enumerated in
reverse order. -/
theorem trim_keeps_5000_subset_witness :
    (trimProcessed List.reverse cexInserted).length = 5000 ∧
    ∀ x ∈ trimProcessed List.reverse cexInserted, x ∈ cexInserted :=
  trim_keeps_5000_subset List.reverse cexInserted
    (List.reverse_perm cexInserted)
    (by rw [cexInserted_length]; norm_num)

lemma cexProcessed_length : cexProcessed.length = 10000 := by
  simp [cexProcessed]

lemma cexProcessed_rev_getElem (h : 9999 < cexProcessed.reverse.length) :
    cexProcessed.reverse[9999] = eventKey (cexEvent 0) := by
  rw [List.getElem_reverse]
  have hidx : cexProcessed.length - 1 - 9999 = 0 := by
    rw [cexProcessed_length]
  simp only [hidx]
  unfold cexProcessed
  rw [List.getElem_map, List.getElem_range]

/-- The oldest key survives the reversed-enumeration trim. -/
lemma cexKey0_mem_trimmed :
    eventKey (cexEvent 0) ∈ cexProcessed.reverse.drop 5000 := by
  have hlen : cexProcessed.reverse.length = 10000 := by
    rw [List.length_reverse, cexProcessed_length]
  have hdl : (cexProcessed.reverse.drop 5000).length = 5000 := by
    rw [List.length_drop, hlen]
  have h4999 : 4999 < (cexProcessed.reverse.drop 5000).length := by omega
  have hget : (cexProcessed.reverse.drop 5000).get ⟨4999, h4999⟩
      = eventKey (cexEvent 0) := by
    rw [List.get_eq_getElem, List.getElem_drop]
    have h2 : (5000 + 4999 : Nat) = 9999 := rfl
    simp only [h2]
    exact cexProcessed_rev_getElem (by omega)
  rw [← hget]
  exact List.get_mem _ _ h4999

lemma cexInserted_get0 (h : 0 < cexInserted.length) :
    cexInserted.get ⟨0, h⟩ = eventKey (cexEvent 0) := by
  rw [List.get_eq_getElem]
  unfold cexInserted
  rw [List.getElem_map, List.getElem_range]

/-- C2 counterexample: with the 10001 keys of `cexInserted` (listed in
insertion order) and the reversal enumeration — one admissible CPython set
order — the trimmed set is NOT the 5000 most recently inserted keys in
insertion order (`cexInserted.drop 5001`): the very first inserted key
survives the code's trim but is not among the 5000 most recent. -/
theorem trim_not_insertion_order_cex :
    trimProcessed List.reverse cexInserted ≠ cexInserted.drop 5001 := by
  have hcode : trimProcessed List.reverse cexInserted
      = cexProcessed.reverse.drop 5000 := by
    simp only [trimProcessed, List.length_reverse, cexInserted_length]
    rw [if_pos (by norm_num : (10000 : Nat) < 10001)]
    rw [show (10001 - 5000 : Nat) = 5001 from rfl]
    rw [cexInserted_eq, List.reverse_append, List.reverse_singleton,
      List.singleton_append, drop_cons_5001]
  intro hEq
  rw [hcode] at hEq
  have hmem : eventKey (cexEvent 0) ∈ cexInserted.drop 5001 := by
    rw [← hEq]
    exact cexKey0_mem_trimmed
  have h0 : (0 : Nat) < cexInserted.length := by
    rw [cexInserted_length]
    norm_num
  have hnotmem := getElem_not_mem_drop cexInserted cexInserted_nodup 0 5001 h0
    (by norm_num)
  rw [cexInserted_get0 h0] at hnotmem
  exact hnotmem hmem

/-- C10: a `user.verified` JSON value lacking the `timestamp` field is
decoded (pydantic default `None`) and handled rather than rejected; its dedup
key is `"{user_id}:{network}:None"`, a function of `(user_id, network)` only,
so a second timestamp-less delivery for the same pair finds the key present
and is skipped as a duplicate. -/
theorem timestampless_event_accepted (r : RawUserVerified) (ev u n : String)
    (hev : r.event = some ev) (hu : r.user_id = some u)
    (hn : r.network = some n) (hts : r.timestamp = none) :
    decodeUserVerified r = some ⟨ev, u, n, none⟩ ∧
    eventKey ⟨ev, u, n, none⟩ = u ++ ":" ++ n ++ ":" ++ "None" ∧
    ∀ (setEnum : List String → List String) (outcome : CreateWalletOutcome)
      (processed : List String), eventKey ⟨ev, u, n, none⟩ ∈ processed →
        handle_user_verified setEnum outcome ⟨ev, u, n, none⟩ processed
          = (.skippedDuplicate, processed) := by
  refine ⟨?_, rfl, ?_⟩
  · simp [decodeUserVerified, hev, hu, hn, ← hts]
  · intro setEnum outcome processed hmem
    simp [handle_user_verified, hmem]

/-- Concrete instance of `timestampless_event_accepted`: the raw message
`{"event": "user.verified", "user_id": "u1", "network": "ethereum"}`
delivered twice. -/
theorem timestampless_event_accepted_witness :
    decodeUserVerified ⟨some "user.verified", some "u1", some "ethereum", none⟩
        = some ⟨"user.verified", "u1", "ethereum", none⟩ ∧
    eventKey ⟨"user.verified", "u1", "ethereum", none⟩
        = "u1" ++ ":" ++ "ethereum" ++ ":" ++ "None" ∧
    handle_user_verified id .created ⟨"user.verified", "u1", "ethereum", none⟩
        [eventKey ⟨"user.verified", "u1", "ethereum", none⟩]
      = (.skippedDuplicate,
          [eventKey ⟨"user.verified", "u1", "ethereum", none⟩]) := by
  have h := timestampless_event_accepted
    ⟨some "user.verified", some "u1", some "ethereum", none⟩
    "user.verified" "u1" "ethereum" rfl rfl rfl rfl
  exact ⟨h.1, h.2.1, h.2.2 id .created _ (by simp)⟩

/-- C4 counterexample: the `Wallet` constructor accepts `"0x" ++ 40 * 'z'`
for ETHEREUM although that address is not "0x" + 40 hex characters (so it
also cannot pass the spec's Keccak-checksum clause): the constructor checks
prefix and length only. -/
theorem wallet_full_format_rule_cex :
    (mkWallet "u1" .ethereum badEthAddr 0).isSome = true ∧
    specEthereumHexRule badEthAddr = false := by
  constructor <;> decide

/-- C4 (amended): a `Wallet` is successfully constructed exactly when the
address satisfies its network's prefix/length rule — ETHEREUM "0x" and
length 42, TRON "T" and length 34, BITCOIN length 26..35 — and the
constructed wallet carries that address; hex-character content, the EIP-55
checksum and Base58/Base58Check validity are not checked. -/
theorem wallet_constructor_shape_check (u : String) (net : NetworkType)
    (a : String) (i : Nat) :
    ((mkWallet u net a i).isSome = true ↔ addressShapeRule net a) ∧
    ∀ w, mkWallet u net a i = some w → w.wallet_address = a := by
  have h1 : (mkWallet u net a i).isSome = validate_address net a := by
    unfold mkWallet
    split <;> simp_all
  have h2 : validate_address net a = true ↔ addressShapeRule net a := by
    cases net <;>
      simp [validate_address, validate_ethereum_address,
        validate_tron_address, validate_bitcoin_address, addressShapeRule]
  refine ⟨by rw [h1]; exact h2, ?_⟩
  intro w hw
  unfold mkWallet at hw
  split at hw
  · injection hw with h
    rw [← h]
  · exact absurd hw (by simp)

/-- C5 counterexample: `verify_user("u1", "solana", b"")` against an empty
repository fails with the unsupported-network `ValueError` — but only AFTER
`repository.get_by_user_and_network` has run: the effect trace of the failing
call contains a repository read, contradicting "the error is raised without
any repository read or write having been performed". -/
theorem verify_invalid_network_reads_repo_cex :
    verify_user (fun _ => "h") 10 "u1" "solana" [] none 0 "t1" "t0"
      = (.badNetwork, [.repoRead]) := by
  decide

/-- C5 (amended): a too-large document fails before touching storage (empty
effect trace); an unsupported network that reaches the service, however, is
only detected when the `UserVerification` model is constructed, after the
repository read has been performed (the trace of the failure holds one
`repoRead`).  Rejection of an unsupported network before any storage access
happens at the API layer, in `VerificationRequest.validate_network`, not in
`VerificationService.verify_user`. -/
theorem verify_user_invalid_input_checks (hashHex : List Nat → String)
    (maxMb : Nat) (u net : String) (data : List Nat)
    (existing : Option UserVerification) (newId : Nat) (nowTs createdTs : String) :
    (maxMb * 1024 * 1024 < data.length →
      verify_user hashHex maxMb u net data existing newId nowTs createdTs
        = (.tooLarge, [])) ∧
    (data.length ≤ maxMb * 1024 * 1024 → parseNetwork net = none →
      existing = none →
      verify_user hashHex maxMb u net data existing newId nowTs createdTs
        = (.badNetwork, [.repoRead])) := by
  constructor
  · intro h
    unfold verify_user
    rw [if_pos h]
  · intro hle hnet hex
    subst hex
    unfold verify_user
    rw [if_neg (not_lt.mpr hle)]
    unfold verifyFresh
    rw [hnet]

/-- C6: when a VERIFIED row for `(user_id, network)` exists (and the document
passes the size check), `verify_user` returns that row unchanged and its only
storage interaction is the lookup: no save, no status update, no
`user.verified` publish. -/
theorem verify_user_idempotent_verified (hashHex : List Nat → String)
    (maxMb : Nat) (u net : String) (data : List Nat)
    (v : UserVerification) (newId : Nat) (nowTs createdTs : String)
    (hst : v.status = .verified) (hle : data.length ≤ maxMb * 1024 * 1024) :
    verify_user hashHex maxMb u net data (some v) newId nowTs createdTs
      = (.returned v, [.repoRead]) := by
  unfold verify_user
  rw [if_neg (not_lt.mpr hle)]
  simp [hst]

/-- Concrete instance of `verify_user_idempotent_verified`: an existing
VERIFIED ethereum row is returned as-is. -/
theorem verify_user_idempotent_verified_witness :
    verify_user (fun _ => "h") 10 "u1" "ethereum" []
        (some ⟨"u1", .ethereum, "h", some 1, .verified, some "t1", "t0"⟩)
        2 "t2" "t3"
      = (.returned ⟨"u1", .ethereum, "h", some 1, .verified, some "t1", "t0"⟩,
          [.repoRead]) :=
  verify_user_idempotent_verified (fun _ => "h") 10 "u1" "ethereum" []
    ⟨"u1", .ethereum, "h", some 1, .verified, some "t1", "t0"⟩ 2 "t2" "t3"
    rfl (by simp)

lemma verifyFresh_fst_ne_tooLarge (hashHex : List Nat → String)
    (u net : String) (data : List Nat) (newId : Nat) (nowTs createdTs : String) :
    (verifyFresh hashHex u net data newId nowTs createdTs).1 ≠ .tooLarge := by
  unfold verifyFresh
  split <;> simp

/-- C7: a document of exactly `max_document_size_mb * 1024 * 1024` decoded
bytes passes the size check (the call never fails with the document-too-large
error), while a document one byte larger is rejected with it (the spec
taxonomy's `INVALID_INPUT`) before any storage access. -/
theorem verify_user_size_boundary (hashHex : List Nat → String) (maxMb : Nat)
    (u net : String) (data data2 : List Nat)
    (existing : Option UserVerification) (newId : Nat) (nowTs createdTs : String) :
    (data.length = maxMb * 1024 * 1024 →
      (verify_user hashHex maxMb u net data existing newId nowTs createdTs).1
        ≠ .tooLarge) ∧
    (data2.length = maxMb * 1024 * 1024 + 1 →
      verify_user hashHex maxMb u net data2 existing newId nowTs createdTs
        = (.tooLarge, [])) := by
  constructor
  · intro h
    unfold verify_user
    rw [if_neg (by omega)]
    split
    · split
      · simp
      · exact verifyFresh_fst_ne_tooLarge hashHex u net data newId nowTs createdTs
    · exact verifyFresh_fst_ne_tooLarge hashHex u net data newId nowTs createdTs
  · intro h
    unfold verify_user
    rw [if_pos (by omega)]

lemma cacheWF_nil (basePath : String) : CacheWF basePath ⟨[]⟩ := by
  intro p hp
  cases hp

lemma get_derivation_path_wf_val (basePath : String) (idx : Nat)
    (st : GenState) (h : CacheWF basePath st) :
    (get_derivation_path basePath idx st).1
      = basePath ++ "/" ++ toString idx := by
  unfold get_derivation_path
  rcases hl : st.pathCache.lookup idx with - | p
  · rfl
  · have hmem : (idx, p) ∈ st.pathCache := by
      rcases List.lookup_eq_some_iff.mp hl with ⟨l₁, l₂, heq, -⟩
      rw [heq]
      simp
    simpa using h (idx, p) hmem

lemma get_derivation_path_wf_state (basePath : String) (idx : Nat)
    (st : GenState) (h : CacheWF basePath st) :
    CacheWF basePath (get_derivation_path basePath idx st).2 := by
  unfold get_derivation_path
  rcases hl : st.pathCache.lookup idx with - | p
  · intro q hq
    simp only [List.mem_cons] at hq
    rcases hq with rfl | hq
    · rfl
    · exact h q hq
  · exact h

lemma generate_fst {σ : Type} (deriveSeed : String → String → σ)
    (genAddr : σ → String → String) (validAddr : String → Bool)
    (basePath mnemonic user_id : String) (idx : Nat) (st : GenState) :
    (generate deriveSeed genAddr validAddr basePath mnemonic user_id idx st).1
      = if validAddr (genAddr (deriveSeed mnemonic user_id)
            (get_derivation_path basePath idx st).1) then
          some (genAddr (deriveSeed mnemonic user_id)
            (get_derivation_path basePath idx st).1)
        else none := by
  unfold generate
  dsimp only
  split <;> rfl

lemma generate_snd {σ : Type} (deriveSeed : String → String → σ)
    (genAddr : σ → String → String) (validAddr : String → Bool)
    (basePath mnemonic user_id : String) (idx : Nat) (st : GenState) :
    (generate deriveSeed genAddr validAddr basePath mnemonic user_id idx st).2
      = (get_derivation_path basePath idx st).2 := by
  unfold generate
  dsimp only
  split <;> rfl

lemma generate_preserves_wf {σ : Type} (deriveSeed : String → String → σ)
    (genAddr : σ → String → String) (validAddr : String → Bool)
    (basePath mnemonic user_id : String) (idx : Nat) (st : GenState)
    (h : CacheWF basePath st) :
    CacheWF basePath
      (generate deriveSeed genAddr validAddr basePath mnemonic user_id idx st).2 := by
  rw [generate_snd]
  exact get_derivation_path_wf_state basePath idx st h

/-- C9: wallet generation is deterministic — with the seed derivation and
address encoding pure functions of their inputs (as the source's are), two
`generate(m, u, i)` calls on the same generator return equal results, the
second call seeing the path cache the first one left behind; the only state,
`_path_cache`, stores exactly what a fresh computation would produce, so a
cache hit cannot change the address. -/
theorem generate_deterministic {σ : Type} (deriveSeed : String → String → σ)
    (genAddr : σ → String → String) (validAddr : String → Bool)
    (basePath mnemonic user_id : String) (idx : Nat) (st : GenState)
    (h : CacheWF basePath st) :
    (generate deriveSeed genAddr validAddr basePath mnemonic user_id idx st).1
      = (generate deriveSeed genAddr validAddr basePath mnemonic user_id idx
          (generate deriveSeed genAddr validAddr basePath mnemonic user_id idx
            st).2).1 := by
  have hpath1 := get_derivation_path_wf_val basePath idx st h
  have hwf2 := get_derivation_path_wf_state basePath idx st h
  have hpath2 := get_derivation_path_wf_val basePath idx
    (get_derivation_path basePath idx st).2 hwf2
  simp only [generate_fst, generate_snd]
  rw [hpath1, hpath2]

/-- Concrete instance of `generate_deterministic`: a fresh generator (empty
path cache) with string-concatenation stand-ins for the pure crypto
functions. -/
theorem generate_deterministic_witness :
    (generate (fun m u => m ++ u) (fun s p => s ++ p) (fun _ => true)
        "base" "mn" "u1" 3 ⟨[]⟩).1
      = (generate (fun m u => m ++ u) (fun s p => s ++ p) (fun _ => true)
          "base" "mn" "u1" 3
          (generate (fun m u => m ++ u) (fun s p => s ++ p) (fun _ => true)
            "base" "mn" "u1" 3 ⟨[]⟩).2).1 :=
  generate_deterministic (fun m u => m ++ u) (fun s p => s ++ p)
    (fun _ => true) "base" "mn" "u1" 3 ⟨[]⟩ (cacheWF_nil "base")

end TestCrypto
